import Mathlib

set_option maxHeartbeats 1600000

namespace MusicBot

/-!  Shallow embedding of the cache and playback logic of `bot.py`.

The global song cache of the source is a Python insertion-ordered dict
`global_song_metadata : dict[str, SongMetadata]` together with the running
counter `current_cache_size_bytes`.  We model the dict as an association
list of `SongMetadata` in insertion order (new keys are appended at the
tail, in-place updates keep the position, `del` removes the entry), and
the counter as an `Int` (a Python int that is incremented and
decremented).  Filesystem and network effects are modelled by oracle
parameters (`delFails`, `fileExists`, ...): the pure state transitions are
translated directly from the source.
-/

/-- Model of the Python class `SongMetadata` (bot.py lines 66-79). -/
structure SongMetadata where
  video_id : String
  title : String
  file_path : String
  size_bytes : Nat
  weight : Nat
deriving DecidableEq

/-- The global cache state: `global_song_metadata` (insertion-ordered) and
`current_cache_size_bytes` (bot.py lines 124-126). -/
structure CacheState where
  entries : List SongMetadata
  total : Int
deriving DecidableEq

/-- Model of `MAX_CACHE_SIZE_BYTES = 500 * 1024 * 1024` (bot.py line 124). -/
def MAX_CACHE_SIZE_BYTES : Int := 500 * 1024 * 1024

/-- Model of Python `s.startswith(pre)` on our strings. -/
def strStartsWith (s pre : String) : Bool :=
  pre.data.isPrefixOf s.data

/-- Model of `os.path.join(global_cache_path, f"{video_id}.mp3")` with
`global_cache_path = "music/global_cache"` (bot.py lines 129-131, 397, 495). -/
def cacheFilePath (vid : String) : String :=
  "music/global_cache/" ++ vid ++ ".mp3"

/-- Dict membership / indexing: first entry with the given key. -/
def findById (vid : String) : List SongMetadata → Option SongMetadata
  | [] => none
  | e :: es => if e.video_id = vid then some e else findById vid es

/-- In-place update of the entry with the given key (dict keys are unique in
every reachable state, so updating the first match models `d[k].f = v`). -/
def updById (vid : String) (f : SongMetadata → SongMetadata) :
    List SongMetadata → List SongMetadata
  | [] => []
  | e :: es => if e.video_id = vid then f e :: es else e :: updById vid f es

/-- Model of `del global_song_metadata[vid]`. -/
def removeById (vid : String) : List SongMetadata → List SongMetadata
  | [] => []
  | e :: es => if e.video_id = vid then es else e :: removeById vid es

/-- Sum of `size_bytes` over the entries. -/
def sumSizes : List SongMetadata → Nat
  | [] => 0
  | e :: es => e.size_bytes + sumSizes es

/-- Python `min(global_song_metadata, key=lambda k: weight)` on a non-empty
dict (bot.py line 427): left fold that keeps the first element attaining
the minimal weight, i.e. the oldest-inserted one among ties. -/
def pyMin (e : SongMetadata) (es : List SongMetadata) : SongMetadata :=
  es.foldl (fun best x => if x.weight < best.weight then x else best) e

/-- The eviction victim the loop body would select from the current state. -/
def victim (s : CacheState) : Option SongMetadata :=
  match s.entries with
  | [] => none
  | e :: es => some (pyMin e es)

/-- One pass structure of the eviction `while` loop of the `play` command
(bot.py lines 420-454), with fuel.  Each iteration either exits (space
sufficient, dict empty, or `os.remove` raised `OSError`, modelled by
`delFails` on the victim's file path) or evicts the minimum-weight entry:
`os.remove`, `current_cache_size_bytes -= size`, `del` (lines 435-439).
The fuel is only a termination device: the caller passes `entries.length`,
which is an upper bound on the number of iterations since each successful
iteration removes one entry.  (The `KeyError` arm at lines 446-450 is
unreachable in the sequential model: the key was just found by `min`.) -/
def evictLoopFuel (need : Nat) (delFails : String → Bool) :
    Nat → CacheState → CacheState
  | 0, s => s
  | fuel + 1, s =>
    match s.entries with
    | [] => s
    | e :: es =>
      if s.total + (need : Int) > MAX_CACHE_SIZE_BYTES then
        let v := pyMin e es
        if delFails v.file_path then s
        else
          evictLoopFuel need delFails fuel
            ⟨removeById v.video_id (e :: es), s.total - (v.size_bytes : Int)⟩
      else s

/-- The eviction loop of the `play` command (bot.py lines 420-454). -/
def evictLoop (need : Nat) (delFails : String → Bool) (s : CacheState) :
    CacheState :=
  evictLoopFuel need delFails s.entries.length s

/-- What the `play` command does next after the eviction logic on a cache
miss (bot.py lines 459-513): stream plus background download when a stream
URL is available, otherwise a full blocking download.  `reportFailure` is
modelled from the spec's reservation-failure taxonomy; it is listed so the
behaviour of the source can be compared against it — the source never
produces it. -/
inductive NextStep where
  | streamAndBackground
  | fullDownload
  | reportFailure
deriving DecidableEq

/-- The cache-miss flow of the `play` command (bot.py lines 405-513): run
the eviction loop when a size estimate is available (`new_song_size_bytes`
truthy, i.e. neither `None` nor `0`, both collapsed here to `need = 0`),
then proceed to streaming or to a full download.  There is no failure exit
between the eviction logic and the download in the source. -/
def cacheMissFlow (need : Nat) (delFails : String → Bool)
    (streamAvailable : Bool) (s : CacheState) : CacheState × NextStep :=
  let s' := if need ≠ 0 then evictLoop need delFails s else s
  (s', if streamAvailable then NextStep.streamAndBackground
       else NextStep.fullDownload)

/-- The metadata commit at the end of the `play` command (bot.py lines
547-588).  `path` is `file_path_to_play`, `fsSize` the result of the
`os.path.getsize` block at lines 553-562 (0 on a stream, a missing file,
or an `OSError`).  If the id is present, the weight is incremented and —
only when a stored stream URL is being replaced by a local file — the path
and size are fixed up (lines 568-574).  Otherwise, for a non-stream path,
a fresh entry with weight 1 is appended and its size added to the total
(lines 575-586); a stream that is not yet in the metadata is left to the
background task (line 587-588). -/
def playInsert (vid title path : String) (fsSize : Nat) (s : CacheState) :
    CacheState :=
  let is_stream := strStartsWith path "http"
  let song_size : Nat := if is_stream then 0 else fsSize
  match findById vid s.entries with
  | some _ =>
    { s with
      entries := updById vid (fun e =>
        let e' := { e with weight := e.weight + 1 }
        if !is_stream && strStartsWith e'.file_path "http" then
          { e' with file_path := path, size_bytes := song_size }
        else e') s.entries }
  | none =>
    if !is_stream then
      { entries := s.entries ++ [⟨vid, title, path, song_size, 1⟩],
        total := s.total + (song_size : Int) }
    else s

/-- The cache commit of `download_song_to_cache_task` on a verified
successful download (bot.py lines 1001-1023).  The final file path is
always `expected_final_path_template`, which the caller builds as
`os.path.join(global_cache_path, f"{video_id}.mp3")` (line 495).  If the
id is present, its path and measured size are written in place and the
total is NOT adjusted (lines 1003-1012); otherwise a fresh entry with
weight 1 is appended and its size added to the total (lines 1013-1023). -/
def bgComplete (vid title : String) (actual_size : Nat) (s : CacheState) :
    CacheState :=
  match findById vid s.entries with
  | some _ =>
    { s with
      entries := updById vid (fun e =>
        { e with file_path := cacheFilePath vid,
                 size_bytes := actual_size }) s.entries }
  | none =>
    { entries :=
        s.entries ++ [⟨vid, title, cacheFilePath vid, actual_size, 1⟩],
      total := s.total + (actual_size : Int) }

/-- Model of the Python function `initialize_cache_state` (bot.py lines
142-194).  `dirOk` is `os.path.isdir(global_cache_path)`; `diskFiles`
lists `(stem, ext, size)` for the directory entries; `getsizeFails` models
an `OSError` from `os.path.getsize`.  Metadata whose id has a matching
`.mp3` file on disk is kept (path and size refreshed) and counted; orphan
metadata is dropped; orphan files are only logged and never re-adopted.
Returns the new `global_song_metadata` and `current_cache_size_bytes`. -/
def init_cache_state (dirOk : Bool) (diskFiles : List (String × String × Nat))
    (getsizeFails : String → Bool) (meta : List SongMetadata) :
    List SongMetadata × Int :=
  if ¬ dirOk then (meta, 0)
  else
    let actual : List (String × Nat) :=
      (diskFiles.filter (fun f => f.2.1 = ".mp3")).map (fun f => (f.1, f.2.2))
    let keep := meta.filterMap (fun m =>
      match actual.find? (fun p => p.1 = m.video_id) with
      | some p =>
        if getsizeFails (cacheFilePath m.video_id) then none
        else some { m with file_path := cacheFilePath m.video_id,
                           size_bytes := p.2 }
      | none => none)
    (keep, (sumSizes keep : Int))

/-!  Per-guild playback state (`GuildPlayerState`, bot.py lines 29-47) and
the playback driver.  The Discord voice client is modelled by its two
observable predicates `is_connected` / `is_playing`; `Option` models the
`None` case.  The inactivity timer handle is modelled by whether the
`inactive_timer` field holds a handle.  `last_ctx` is modelled by whether
a context is available.  File paths and stream URLs stay strings, with
`fileExists` modelling `os.path.exists` and `playRaises` modelling an
exception from `voice_client.play` / audio-source construction. -/

/-- Observable state of a `discord.VoiceClient`. -/
structure VoiceClient where
  connected : Bool
  playing : Bool
deriving DecidableEq

/-- Model of the Python class `GuildPlayerState` (bot.py lines 29-47). -/
structure GuildPlayerState where
  queue : List String
  song_titles : List String
  current_song_path : Option String
  current_song_title : Option String
  inactive_timer : Bool
  voice_client : Option VoiceClient
  last_ctx : Bool
deriving DecidableEq

/-- Python truthiness of an `str | None` field such as
`current_song_path`: `None` and the empty string are falsy. -/
def truthyStr : Option String → Bool
  | none => false
  | some s => !s.isEmpty

/-- Model of `voice_client and voice_client.is_connected()`. -/
def vcConnected (g : GuildPlayerState) : Bool :=
  match g.voice_client with
  | some vc => vc.connected
  | none => false

/-- Model of `voice_client and voice_client.is_playing()`. -/
def vcPlaying (g : GuildPlayerState) : Bool :=
  match g.voice_client with
  | some vc => vc.playing
  | none => false

/-- Queue append of the `play` command (bot.py lines 591-592). -/
def enqueue (fp title : String) (g : GuildPlayerState) : GuildPlayerState :=
  { g with queue := g.queue ++ [fp], song_titles := g.song_titles ++ [title] }

/-- The invalid-voice-client branch of `play_next_song` (bot.py lines
795-804): clear queue, titles, current fields, cancel the timer (the
`voice_client` field itself is not touched). -/
def clearPlayback (g : GuildPlayerState) : GuildPlayerState :=
  { g with queue := [], song_titles := [],
           current_song_path := none, current_song_title := none,
           inactive_timer := false }

/-- The queue-draining part of `play_next_song` (bot.py lines 812-874),
run once the voice-client and context guards have passed.  The queue and
title lists are the recursion arguments; `g` supplies the remaining
fields.  Head popped first (lines 813-817); a missing local file (lines
824-834) or an exception from playback setup (lines 855-864) clears the
current fields and recurses on the strictly shorter queue; on success the
current fields are set, any previous timer is cancelled and a fresh one is
armed (lines 842-853); on an empty queue the current fields are cleared
and the existing timer is left untouched (lines 866-874). -/
def playLoop (fe pr : String → Bool) (g : GuildPlayerState) :
    List String → List String → GuildPlayerState
  | [], titles =>
    { g with queue := [], song_titles := titles,
             current_song_path := none, current_song_title := none }
  | fp :: rest, titles =>
    let title := titles.head?.getD "Unknown Title"
    let titles' := titles.tail
    if !strStartsWith fp "http" && !fe fp then
      playLoop fe pr g rest titles'
    else if pr fp then
      playLoop fe pr g rest titles'
    else
      { g with queue := rest, song_titles := titles',
               current_song_path := some fp,
               current_song_title := some title,
               inactive_timer := true }

/-- Model of `play_next_song` (bot.py lines 781-874).  `fe` models
`os.path.exists`, `pr` an exception raised while setting up playback of
the given path. -/
def play_next_song (fe pr : String → Bool) (g : GuildPlayerState) :
    GuildPlayerState :=
  if vcConnected g = false then clearPlayback g
  else if g.last_ctx = false then g
  else playLoop fe pr g g.queue g.song_titles

/-- A queue entry on which `play_next_song` fails and recurses: a
non-URL path whose file is missing, or a path whose playback setup
raises. -/
def entryFails (fe pr : String → Bool) (fp : String) : Bool :=
  (!strStartsWith fp "http" && !fe fp) || pr fp

/-- Model of the sink callback `song_finished` (bot.py lines 877-912):
clear the current fields, then advance if still connected, else clear the
queue and cancel the timer. -/
def song_finished (fe pr : String → Bool) (g : GuildPlayerState) :
    GuildPlayerState :=
  let g' := { g with current_song_path := none, current_song_title := none }
  if vcConnected g' then play_next_song fe pr g'
  else { g' with queue := [], song_titles := [], inactive_timer := false }

/-- Model of the `leave` command's state effect (bot.py lines 646-680):
only when a connected voice client exists are the disconnect, the queue
and current clearing and the timer cancellation performed; otherwise the
command only replies and changes nothing. -/
def leave (g : GuildPlayerState) : GuildPlayerState :=
  if vcConnected g then
    { g with voice_client := none, queue := [], song_titles := [],
             current_song_path := none, current_song_title := none,
             inactive_timer := false }
  else g

/-- Model of the timer callback `check_inactive` (bot.py lines 915-955):
if the current path is truthy or the client reports playback, return
without touching anything; else if connected, disconnect, clear queue and
titles and drop the timer handle; else only drop the timer handle. -/
def check_inactive (g : GuildPlayerState) : GuildPlayerState :=
  if truthyStr g.current_song_path || vcPlaying g then g
  else if vcConnected g then
    { g with voice_client := none, queue := [], song_titles := [],
             inactive_timer := false }
  else { g with inactive_timer := false }

/-- The cache consistency invariant: dict keys are unique, the running
total equals the sum of entry sizes, and no stored file path is a stream
URL. -/
def CacheInv (s : CacheState) : Prop :=
  (s.entries.map SongMetadata.video_id).Nodup ∧
  s.total = (sumSizes s.entries : Int) ∧
  ∀ e ∈ s.entries, strStartsWith e.file_path "http" = false

/-- Cache states reachable from the startup state (empty metadata, zero
total — see `init_cache_state` on an empty map) by the three cache
mutations of the source: the eviction loop of `play`, the metadata commit
of `play`, and the background-download commit — the latter restricted to
completions whose measured size agrees with an already-stored entry for
the same id, which is the side condition under which the total/sum
invariant survives. -/
inductive ReachableConsistent : CacheState → Prop where
  | init : ReachableConsistent ⟨[], 0⟩
  | evict (need : Nat) (delFails : String → Bool) {s : CacheState} :
      ReachableConsistent s →
      ReachableConsistent (evictLoop need delFails s)
  | commit (vid title path : String) (fsSize : Nat) {s : CacheState} :
      ReachableConsistent s →
      ReachableConsistent (playInsert vid title path fsSize s)
  | background (vid title : String) (n : Nat) {s : CacheState} :
      ReachableConsistent s →
      (∀ e ∈ s.entries, e.video_id = vid → e.size_bytes = n) →
      ReachableConsistent (bgComplete vid title n s)

/-!  Helper lemmas about the association-list operations. -/

theorem findById_some {vid : String} :
    ∀ {l : List SongMetadata} {e : SongMetadata},
      findById vid l = some e → e.video_id = vid ∧ e ∈ l := by
  intro l
  induction l with
  | nil => intro e h; simp [findById] at h
  | cons a l ih =>
    intro e h
    by_cases ha : a.video_id = vid
    · simp [findById, ha] at h
      exact ⟨h ▸ ha, by simp [h]⟩
    · simp [findById, ha] at h
      rcases ih h with ⟨h1, h2⟩
      exact ⟨h1, by simp [h2]⟩

theorem findById_none {vid : String} :
    ∀ {l : List SongMetadata},
      findById vid l = none ↔ ∀ x ∈ l, x.video_id ≠ vid := by
  intro l
  induction l with
  | nil => simp [findById]
  | cons a l ih =>
    by_cases ha : a.video_id = vid
    · simp [findById, ha]
    · simp [findById, ha, ih]

theorem updById_decomp {vid : String} (f : SongMetadata → SongMetadata) :
    ∀ {l : List SongMetadata} {e : SongMetadata},
      findById vid l = some e →
      ∃ l₁ l₂, l = l₁ ++ e :: l₂ ∧
        updById vid f l = l₁ ++ f e :: l₂ ∧
        ∀ x ∈ l₁, x.video_id ≠ vid := by
  intro l
  induction l with
  | nil => intro e h; simp [findById] at h
  | cons a l ih =>
    intro e h
    by_cases ha : a.video_id = vid
    · simp [findById, ha] at h
      subst h
      exact ⟨[], l, by simp, by simp [updById, ha], by simp⟩
    · simp [findById, ha] at h
      rcases ih h with ⟨l₁, l₂, h1, h2, h3⟩
      refine ⟨a :: l₁, l₂, by simp [h1], by simp [updById, ha, h2], ?_⟩
      intro x hx
      rcases List.mem_cons.mp hx with rfl | hx
      · exact ha
      · exact h3 x hx

theorem removeById_prefix_miss {vid : String} :
    ∀ {l₁ : List SongMetadata} {v : SongMetadata} {l₂ : List SongMetadata},
      v.video_id = vid → (∀ x ∈ l₁, x.video_id ≠ vid) →
      removeById vid (l₁ ++ v :: l₂) = l₁ ++ l₂ := by
  intro l₁
  induction l₁ with
  | nil => intro v l₂ hv _; simp [removeById, hv]
  | cons a l₁ ih =>
    intro v l₂ hv hmiss
    have ha : a.video_id ≠ vid := hmiss a (by simp)
    simp only [List.cons_append, removeById, if_neg ha]
    show a :: removeById vid (l₁ ++ v :: l₂) = a :: (l₁ ++ l₂)
    rw [ih hv (fun x hx => hmiss x (by simp [hx]))]

theorem removeById_length {vid : String} :
    ∀ {l : List SongMetadata}, (∃ x ∈ l, x.video_id = vid) →
      (removeById vid l).length + 1 = l.length := by
  intro l
  induction l with
  | nil => intro h; simp at h
  | cons a l ih =>
    intro h
    by_cases ha : a.video_id = vid
    · simp [removeById, ha]
    · rcases h with ⟨x, hx, hxid⟩
      rcases List.mem_cons.mp hx with rfl | hx
      · exact absurd hxid ha
      · simp only [removeById, if_neg ha, List.length_cons]
        rw [← ih ⟨x, hx, hxid⟩]

theorem sumSizes_append :
    ∀ (l₁ l₂ : List SongMetadata),
      sumSizes (l₁ ++ l₂) = sumSizes l₁ + sumSizes l₂ := by
  intro l₁ l₂
  induction l₁ with
  | nil => simp [sumSizes]
  | cons a l₁ ih => simp [sumSizes, ih]; omega

/-!  Helper lemmas about `pyMin`, the Python `min` over the
insertion-ordered dict. -/

theorem pyMin_nil (e : SongMetadata) : pyMin e [] = e := rfl

theorem pyMin_cons (e x : SongMetadata) (t : List SongMetadata) :
    pyMin e (x :: t) = pyMin (if x.weight < e.weight then x else e) t := rfl

theorem pyMin_decomp (e : SongMetadata) (t : List SongMetadata) :
    ∃ l₁ l₂, e :: t = l₁ ++ pyMin e t :: l₂ ∧
      (∀ x ∈ e :: t, (pyMin e t).weight ≤ x.weight) ∧
      (∀ x ∈ l₁, (pyMin e t).weight < x.weight) := by
  induction t generalizing e with
  | nil =>
    refine ⟨[], [], by simp [pyMin_nil], ?_, by simp⟩
    intro x hx
    rw [pyMin_nil]
    rcases List.mem_cons.mp hx with rfl | hx
    · exact le_refl _
    · simp at hx
  | cons x t ih =>
    rw [pyMin_cons]
    by_cases hx : x.weight < e.weight
    · rw [if_pos hx]
      rcases ih x with ⟨l₁, l₂, hdec, hmin, hstrict⟩
      refine ⟨e :: l₁, l₂, by rw [List.cons_append, ← hdec], ?_, ?_⟩
      · intro y hy
        rcases List.mem_cons.mp hy with rfl | hy
        · exact le_of_lt (lt_of_le_of_lt (hmin x (by simp)) hx)
        · exact hmin y hy
      · intro y hy
        rcases List.mem_cons.mp hy with rfl | hy
        · exact lt_of_le_of_lt (hmin x (by simp)) hx
        · exact hstrict y hy
    · rw [if_neg hx]
      have hex : e.weight ≤ x.weight := Nat.le_of_not_lt hx
      rcases ih e with ⟨l₁, l₂, hdec, hmin, hstrict⟩
      generalize hveq : pyMin e t = v at hdec hmin hstrict ⊢
      cases l₁ with
      | nil =>
        simp only [List.nil_append] at hdec
        have he : v = e := (List.cons.injEq _ _ _ _ ▸ hdec).1.symm
        have hl₂ : t = l₂ := (List.cons.injEq _ _ _ _ ▸ hdec).2
        refine ⟨[], x :: t, by simp [he], ?_, by simp⟩
        intro y hy
        rcases List.mem_cons.mp hy with rfl | hy
        · exact hmin y (by simp)
        · rcases List.mem_cons.mp hy with rfl | hy
          · rw [he]; exact hex
          · exact hmin y (by simp [hy])
      | cons a l₁ =>
        simp only [List.cons_append] at hdec
        have hae : a = e := ((List.cons.injEq _ _ _ _ ▸ hdec).1).symm
        have ht : t = l₁ ++ v :: l₂ := (List.cons.injEq _ _ _ _ ▸ hdec).2
        have hve : v.weight < e.weight := hae ▸ hstrict a (by simp)
        refine ⟨e :: x :: l₁, l₂, by simp [ht], ?_, ?_⟩
        · intro y hy
          rcases List.mem_cons.mp hy with rfl | hy
          · exact le_of_lt hve
          · rcases List.mem_cons.mp hy with rfl | hy
            · exact le_of_lt (lt_of_lt_of_le hve hex)
            · exact hmin y (by simp [hy])
        · intro y hy
          rcases List.mem_cons.mp hy with rfl | hy
          · exact hve
          · rcases List.mem_cons.mp hy with rfl | hy
            · exact lt_of_lt_of_le hve hex
            · exact hstrict y (by simp [hy])

theorem pyMin_mem (e : SongMetadata) (t : List SongMetadata) :
    pyMin e t ∈ e :: t := by
  rcases pyMin_decomp e t with ⟨l₁, l₂, hdec, -, -⟩
  rw [hdec]
  exact List.mem_append.mpr (Or.inr (by simp))

theorem cacheFilePath_not_http (vid : String) :
    strStartsWith (cacheFilePath vid) "http" = false := by
  obtain ⟨d⟩ := vid
  rfl

theorem sumSizes_cons (e : SongMetadata) (l : List SongMetadata) :
    sumSizes (e :: l) = e.size_bytes + sumSizes l := rfl

theorem nodup_middle_ids {l₁ l₂ : List SongMetadata} {v : SongMetadata}
    (h : ((l₁ ++ v :: l₂).map SongMetadata.video_id).Nodup) :
    (∀ x ∈ l₁, x.video_id ≠ v.video_id) ∧
    ((l₁ ++ l₂).map SongMetadata.video_id).Nodup := by
  rw [List.map_append, List.map_cons, List.nodup_middle] at h
  rcases List.nodup_cons.mp h with ⟨hnotmem, hnd⟩
  refine ⟨?_, by rw [List.map_append]; exact hnd⟩
  intro x hx heq
  exact hnotmem (List.mem_append.mpr
    (Or.inl (heq ▸ List.mem_map_of_mem SongMetadata.video_id hx)))

theorem evictLoopFuel_inv (need : Nat) (delF : String → Bool) :
    ∀ (fuel : Nat) (s : CacheState), CacheInv s →
      CacheInv (evictLoopFuel need delF fuel s) := by
  intro fuel
  induction fuel with
  | zero => intro s h; exact h
  | succ fuel ih =>
    rintro ⟨entries, tot⟩ h
    cases entries with
    | nil => simpa [evictLoopFuel] using h
    | cons e es =>
      by_cases hc : tot + (need : Int) > MAX_CACHE_SIZE_BYTES
      · by_cases hd : delF (pyMin e es).file_path
        · simpa [evictLoopFuel, hc, hd] using h
        · have step :
              evictLoopFuel need delF (fuel + 1) ⟨e :: es, tot⟩ =
                evictLoopFuel need delF fuel
                  ⟨removeById (pyMin e es).video_id (e :: es),
                   tot - ((pyMin e es).size_bytes : Int)⟩ := by
            simp [evictLoopFuel, hc, hd]
          rw [step]
          apply ih
          rcases pyMin_decomp e es with ⟨l₁, l₂, hdec, -, -⟩
          generalize hveq : pyMin e es = v at hdec ⊢
          rcases h with ⟨hnd, hsum, hhttp⟩
          simp only at hnd hsum hhttp
          rw [hdec] at hnd hsum hhttp
          rcases nodup_middle_ids hnd with ⟨hmiss, hnd'⟩
          have hrem : removeById v.video_id (e :: es) = l₁ ++ l₂ := by
            rw [hdec]
            exact removeById_prefix_miss rfl hmiss
          refine ⟨by rw [hrem]; exact hnd', ?_, ?_⟩
          · rw [hrem]
            rw [sumSizes_append, sumSizes_cons] at hsum
            rw [sumSizes_append]
            push_cast at hsum ⊢
            omega
          · rw [hrem]
            intro x hx
            rcases List.mem_append.mp hx with hx | hx
            · exact hhttp x (List.mem_append.mpr (Or.inl hx))
            · exact hhttp x (List.mem_append.mpr (Or.inr (by simp [hx])))
      · simpa [evictLoopFuel, hc] using h

theorem evictLoop_inv (need : Nat) (delF : String → Bool) {s : CacheState}
    (h : CacheInv s) : CacheInv (evictLoop need delF s) :=
  evictLoopFuel_inv need delF s.entries.length s h

theorem playInsert_inv (vid title path : String) (fsSize : Nat)
    {s : CacheState} (h : CacheInv s) :
    CacheInv (playInsert vid title path fsSize s) := by
  rcases h with ⟨hnd, hsum, hhttp⟩
  cases hfind : findById vid s.entries with
  | none =>
    by_cases hst : strStartsWith path "http"
    · simpa [playInsert, hfind, hst] using ⟨hnd, hsum, hhttp⟩
    · have hst' : strStartsWith path "http" = false := by simpa using hst
      have hnew : vid ∉ s.entries.map SongMetadata.video_id := by
        intro hmem
        rcases List.mem_map.mp hmem with ⟨x, hx, hxid⟩
        exact (findById_none.mp hfind x hx) hxid
      have hq : playInsert vid title path fsSize s =
          { entries := s.entries ++ [⟨vid, title, path, fsSize, 1⟩],
            total := s.total + (fsSize : Int) } := by
        simp [playInsert, hfind, hst']
      rw [hq]
      refine ⟨?_, ?_, ?_⟩
      · show ((s.entries ++ [(⟨vid, title, path, fsSize, 1⟩ : SongMetadata)]).map
            SongMetadata.video_id).Nodup
        rw [List.map_append, List.map_cons, List.map_nil, List.nodup_append]
        refine ⟨hnd, List.nodup_singleton _, fun a ha hb => ?_⟩
        rw [List.mem_singleton] at hb
        simp only at hb
        exact hnew (hb ▸ ha)
      · show s.total + (fsSize : Int) =
          (sumSizes (s.entries ++ [(⟨vid, title, path, fsSize, 1⟩ : SongMetadata)]) : Int)
        rw [sumSizes_append, sumSizes_cons, (show sumSizes [] = 0 from rfl)]
        push_cast
        rw [hsum]
        ring
      · intro x hx
        rcases List.mem_append.mp hx with hx | hx
        · exact hhttp x hx
        · rw [List.mem_singleton] at hx
          subst hx
          exact hst'
  | some e =>
    have hehttp : strStartsWith e.file_path "http" = false :=
      hhttp e (findById_some hfind).2
    rcases updById_decomp
        (fun e =>
          let e' := { e with weight := e.weight + 1 }
          if !strStartsWith path "http" && strStartsWith e'.file_path "http" then
            { e' with file_path := path,
                      size_bytes := if strStartsWith path "http" then 0 else fsSize }
          else e') hfind with ⟨l₁, l₂, hdec, hupd, -⟩
    have hfe :
        (fun e =>
          let e' := { e with weight := e.weight + 1 }
          if !strStartsWith path "http" && strStartsWith e'.file_path "http" then
            { e' with file_path := path,
                      size_bytes := if strStartsWith path "http" then 0 else fsSize }
          else e') e = { e with weight := e.weight + 1 } := by
      simp [hehttp]
    refine ⟨?_, ?_, ?_⟩ <;> simp only [playInsert, hfind, hupd, hfe]
    · rw [hdec] at hnd
      rw [List.map_append, List.map_cons] at hnd ⊢
      simpa using hnd
    · rw [hdec] at hsum
      rw [sumSizes_append, sumSizes_cons] at hsum ⊢
      simpa using hsum
    · rw [hdec] at hhttp
      intro x hx
      rcases List.mem_append.mp hx with hx | hx
      · exact hhttp x (List.mem_append.mpr (Or.inl hx))
      · rcases List.mem_cons.mp hx with rfl | hx
        · simpa using hehttp
        · exact hhttp x (List.mem_append.mpr (Or.inr (by simp [hx])))

theorem bgComplete_inv (vid title : String) (n : Nat) {s : CacheState}
    (h : CacheInv s)
    (hsz : ∀ e ∈ s.entries, e.video_id = vid → e.size_bytes = n) :
    CacheInv (bgComplete vid title n s) := by
  rcases h with ⟨hnd, hsum, hhttp⟩
  cases hfind : findById vid s.entries with
  | none =>
    have hnew : vid ∉ s.entries.map SongMetadata.video_id := by
      intro hmem
      rcases List.mem_map.mp hmem with ⟨x, hx, hxid⟩
      exact (findById_none.mp hfind x hx) hxid
    have hq : bgComplete vid title n s =
        { entries := s.entries ++ [⟨vid, title, cacheFilePath vid, n, 1⟩],
          total := s.total + (n : Int) } := by
      simp [bgComplete, hfind]
    rw [hq]
    refine ⟨?_, ?_, ?_⟩
    · show ((s.entries ++ [(⟨vid, title, cacheFilePath vid, n, 1⟩ : SongMetadata)]).map
          SongMetadata.video_id).Nodup
      rw [List.map_append, List.map_cons, List.map_nil, List.nodup_append]
      refine ⟨hnd, List.nodup_singleton _, fun a ha hb => ?_⟩
      rw [List.mem_singleton] at hb
      simp only at hb
      exact hnew (hb ▸ ha)
    · show s.total + (n : Int) =
        (sumSizes (s.entries ++ [(⟨vid, title, cacheFilePath vid, n, 1⟩ : SongMetadata)]) : Int)
      rw [sumSizes_append, sumSizes_cons, (show sumSizes [] = 0 from rfl)]
      push_cast
      rw [hsum]
      ring
    · intro x hx
      rcases List.mem_append.mp hx with hx | hx
      · exact hhttp x hx
      · rw [List.mem_singleton] at hx
        subst hx
        exact cacheFilePath_not_http vid
  | some e =>
    have heid : e.video_id = vid := (findById_some hfind).1
    have hesz : e.size_bytes = n := hsz e (findById_some hfind).2 heid
    rcases updById_decomp
        (fun e => { e with file_path := cacheFilePath vid, size_bytes := n })
        hfind with ⟨l₁, l₂, hdec, hupd, -⟩
    refine ⟨?_, ?_, ?_⟩ <;> simp only [bgComplete, hfind, hupd]
    · rw [hdec] at hnd
      rw [List.map_append, List.map_cons] at hnd ⊢
      simpa using hnd
    · rw [hdec] at hsum
      rw [sumSizes_append, sumSizes_cons] at hsum ⊢
      simpa [hesz] using hsum
    · rw [hdec] at hhttp
      intro x hx
      rcases List.mem_append.mp hx with hx | hx
      · exact hhttp x (List.mem_append.mpr (Or.inl hx))
      · rcases List.mem_cons.mp hx with rfl | hx
        · simpa using cacheFilePath_not_http vid
        · exact hhttp x (List.mem_append.mpr (Or.inr (by simp [hx])))

theorem reachable_inv {s : CacheState} (h : ReachableConsistent s) :
    CacheInv s := by
  induction h with
  | init => exact ⟨by simp, by simp [sumSizes], by simp⟩
  | evict need delF _ ih => exact evictLoop_inv need delF ih
  | commit vid title path fsSize _ ih => exact playInsert_inv vid title path fsSize ih
  | background vid title n _ hsz ih => exact bgComplete_inv vid title n ih hsz

theorem evictLoopFuel_stops (need : Nat) (delF : String → Bool) :
    ∀ (fuel : Nat) (s : CacheState), s.entries.length ≤ fuel →
      (evictLoopFuel need delF fuel s).total + (need : Int) ≤
          MAX_CACHE_SIZE_BYTES ∨
      (evictLoopFuel need delF fuel s).entries = [] ∨
      (∃ v, victim (evictLoopFuel need delF fuel s) = some v ∧
        delF v.file_path = true) := by
  intro fuel
  induction fuel with
  | zero =>
    rintro ⟨entries, tot⟩ hlen
    have hnil : entries = [] := List.length_eq_zero.mp (Nat.le_zero.mp hlen)
    subst hnil
    exact Or.inr (Or.inl rfl)
  | succ fuel ih =>
    rintro ⟨entries, tot⟩ hlen
    cases entries with
    | nil => exact Or.inr (Or.inl (by simp [evictLoopFuel]))
    | cons e es =>
      by_cases hc : tot + (need : Int) > MAX_CACHE_SIZE_BYTES
      · by_cases hd : delF (pyMin e es).file_path
        · refine Or.inr (Or.inr ⟨pyMin e es, ?_, hd⟩)
          simp [evictLoopFuel, hc, hd, victim]
        · have step :
              evictLoopFuel need delF (fuel + 1) ⟨e :: es, tot⟩ =
                evictLoopFuel need delF fuel
                  ⟨removeById (pyMin e es).video_id (e :: es),
                   tot - ((pyMin e es).size_bytes : Int)⟩ := by
            simp [evictLoopFuel, hc, hd]
          rw [step]
          apply ih
          show (removeById (pyMin e es).video_id (e :: es)).length ≤ fuel
          have hrem :
              (removeById (pyMin e es).video_id (e :: es)).length + 1 =
                (e :: es).length :=
            removeById_length ⟨pyMin e es, pyMin_mem e es, rfl⟩
          simp only [List.length_cons] at hrem hlen
          omega
      · have hid : evictLoopFuel need delF (fuel + 1) ⟨e :: es, tot⟩ =
            ⟨e :: es, tot⟩ := by
          simp [evictLoopFuel, hc]
        rw [hid]
        exact Or.inl (not_lt.mp hc)

/-!  Helper lemmas about the playback driver. -/

theorem playLoop_congr (fe pr : String → Bool) {g g' : GuildPlayerState}
    (ht : g.inactive_timer = g'.inactive_timer)
    (hv : g.voice_client = g'.voice_client)
    (hc : g.last_ctx = g'.last_ctx) :
    ∀ (q titles : List String),
      playLoop fe pr g q titles = playLoop fe pr g' q titles := by
  intro q
  induction q with
  | nil =>
    intro titles
    simp only [playLoop]
    cases g
    cases g'
    simp_all
  | cons fp rest ih =>
    intro titles
    simp only [playLoop]
    by_cases h1 : (!strStartsWith fp "http" && !fe fp) = true
    · rw [if_pos h1, if_pos h1]
      exact ih titles.tail
    · rw [if_neg h1, if_neg h1]
      by_cases h2 : pr fp = true
      · rw [if_pos h2, if_pos h2]
        exact ih titles.tail
      · rw [if_neg h2, if_neg h2]
        cases g
        cases g'
        simp_all

theorem playLoop_cons_fails (fe pr : String → Bool) (g : GuildPlayerState)
    (fp : String) (rest titles : List String)
    (hfail : entryFails fe pr fp = true) :
    playLoop fe pr g (fp :: rest) titles =
      playLoop fe pr g rest titles.tail := by
  simp only [entryFails, Bool.or_eq_true] at hfail
  simp only [playLoop]
  rcases hfail with h1 | h2
  · rw [if_pos h1]
  · by_cases h1 : (!strStartsWith fp "http" && !fe fp) = true
    · rw [if_pos h1]
    · rw [if_neg h1, if_pos h2]

theorem playLoop_cons_ok (fe pr : String → Bool) (g : GuildPlayerState)
    (fp : String) (rest titles : List String)
    (hok : entryFails fe pr fp = false) :
    playLoop fe pr g (fp :: rest) titles =
      { g with queue := rest, song_titles := titles.tail,
               current_song_path := some fp,
               current_song_title := some (titles.head?.getD "Unknown Title"),
               inactive_timer := true } := by
  have h1 : (!strStartsWith fp "http" && !fe fp) = false := by
    cases h : strStartsWith fp "http" <;> cases h' : fe fp <;>
      simp_all [entryFails]
  have h2 : pr fp = false := by
    cases h : pr fp <;> simp_all [entryFails]
  simp [playLoop, h1, h2]

theorem playLoop_all_fail (fe pr : String → Bool) (g : GuildPlayerState) :
    ∀ (q titles : List String), (∀ fp ∈ q, entryFails fe pr fp = true) →
      playLoop fe pr g q titles =
        { g with queue := [], song_titles := titles.drop q.length,
                 current_song_path := none, current_song_title := none } := by
  intro q
  induction q with
  | nil =>
    intro titles _
    simp [playLoop]
  | cons fp rest ih =>
    intro titles hall
    rw [playLoop_cons_fails fe pr g fp rest titles (hall fp (by simp))]
    rw [ih titles.tail (fun x hx => hall x (by simp [hx]))]
    have hdrop : titles.tail.drop rest.length = titles.drop (fp :: rest).length := by
      cases titles <;> simp
    rw [hdrop]

theorem play_next_song_run (fe pr : String → Bool) (g : GuildPlayerState)
    (hvc : vcConnected g = true) (hctx : g.last_ctx = true) :
    play_next_song fe pr g = playLoop fe pr g g.queue g.song_titles := by
  simp [play_next_song, hvc, hctx]

theorem advance_ok_step (fe pr : String → Bool) (g : GuildPlayerState)
    (fp : String) (rest titles : List String)
    (hvc : vcConnected g = true) (hctx : g.last_ctx = true)
    (hq : g.queue = fp :: rest) (ht : g.song_titles = titles)
    (hok : entryFails fe pr fp = false) :
    play_next_song fe pr g =
      { g with queue := rest, song_titles := titles.tail,
               current_song_path := some fp,
               current_song_title := some (titles.head?.getD "Unknown Title"),
               inactive_timer := true } := by
  rw [play_next_song_run fe pr g hvc hctx, hq, ht,
      playLoop_cons_ok fe pr g fp rest titles hok]

theorem song_finished_connected (fe pr : String → Bool) (g : GuildPlayerState)
    (hvc : vcConnected g = true) :
    song_finished fe pr g =
      play_next_song fe pr
        { g with current_song_path := none, current_song_title := none } := by
  have hv' : vcConnected
      { g with current_song_path := none, current_song_title := none } = true :=
    hvc
  simp only [song_finished]
  rw [if_pos hv']

/-!  Claim theorems. -/

/-- Claim C1 (amended).  Over every sequence of eviction, insertion and
background-fetch-completion operations from the startup state,
`current_cache_size_bytes` equals the sum of `size_bytes` over
`global_song_metadata` — PROVIDED every background-fetch completion for a
content id that is already present measures the same size as the stored
entry (`ReachableConsistent`).  Moreover, committing a content id that is
already present (direct download or background fetch) updates the entry
in place and never adds its size to the total a second time.  The claim
as stated, without the same-size proviso, is false on the code: a
background completion for a present id overwrites `size_bytes` without
adjusting the total (bot.py lines 1003-1012); see the counterexample. -/
theorem cache_total_eq_sum :
    (∀ s : CacheState, ReachableConsistent s →
      s.total = (sumSizes s.entries : Int)) ∧
    (∀ (s : CacheState) (vid title path : String) (fsSize n : Nat),
      findById vid s.entries ≠ none →
      (playInsert vid title path fsSize s).total = s.total ∧
      (bgComplete vid title n s).total = s.total) := by
  constructor
  · intro s hs
    exact (reachable_inv hs).2.1
  · intro s vid title path fsSize n hfind
    cases hf : findById vid s.entries with
    | none => exact absurd hf hfind
    | some e => exact ⟨by simp [playInsert, hf], by simp [bgComplete, hf]⟩

/-- Witness for C1: the invariant at the startup state, and an in-place
commit leaving the total unchanged at a concrete one-entry cache. -/
theorem cache_total_eq_sum_witness :
    ((⟨[], 0⟩ : CacheState).total = (sumSizes ([] : List SongMetadata) : Int)) ∧
    (playInsert "a" "t2" "music/x.mp3" 7
        ⟨[⟨"a", "t", "music/x.mp3", 5, 1⟩], 5⟩).total =
      (⟨[⟨"a", "t", "music/x.mp3", 5, 1⟩], 5⟩ : CacheState).total :=
  ⟨cache_total_eq_sum.1 ⟨[], 0⟩ ReachableConsistent.init,
   (cache_total_eq_sum.2 ⟨[⟨"a", "t", "music/x.mp3", 5, 1⟩], 5⟩
      "a" "t2" "music/x.mp3" 7 9 (by decide)).1⟩

/-- Counterexample for C1 as stated: two background-fetch completions for
the same content id with different measured sizes (a legitimate operation
sequence — each completion measures the file it just wrote) leave
`current_cache_size_bytes = 100` while the only entry's `size_bytes` is
50, so the total no longer equals the sum over the entries. -/
theorem cache_total_counterexample :
    (bgComplete "a" "t" 50 (bgComplete "a" "t" 100 ⟨[], 0⟩)).total ≠
      (sumSizes (bgComplete "a" "t" 50
          (bgComplete "a" "t" 100 ⟨[], 0⟩)).entries : Int) := by
  decide

/-- Claim C2 (amended).  For every cache state and non-zero size estimate,
the eviction loop stops only when the requested size fits
(`total + need ≤ capacity`), or the entry map has become empty, or the
deletion of the current minimum-weight victim failed — and in every case
the `play` command proceeds to the streaming/download step: no reservation
failure is ever reported to the caller.  The claim as stated — that the
reservation either frees enough space or fails and is reported as a
failure — is false on the code: there is no failure exit (bot.py lines
455-513); see the counterexample. -/
theorem reserve_outcome (need : Nat) (delF : String → Bool)
    (streamAvailable : Bool) (s : CacheState) (hneed : need ≠ 0) :
    ((cacheMissFlow need delF streamAvailable s).1.total + (need : Int) ≤
        MAX_CACHE_SIZE_BYTES ∨
      (cacheMissFlow need delF streamAvailable s).1.entries = [] ∨
      (∃ v, victim (cacheMissFlow need delF streamAvailable s).1 = some v ∧
        delF v.file_path = true)) ∧
    (cacheMissFlow need delF streamAvailable s).2 ≠ NextStep.reportFailure := by
  constructor
  · have h1 : (cacheMissFlow need delF streamAvailable s).1 =
        evictLoop need delF s := by
      simp [cacheMissFlow, hneed]
    rw [h1]
    exact evictLoopFuel_stops need delF s.entries.length s (le_refl _)
  · cases streamAvailable <;> simp [cacheMissFlow]

/-- Witness for C2 at a concrete input. -/
theorem reserve_outcome_witness :
    ((cacheMissFlow 1 (fun _ => false) false ⟨[], 0⟩).1.total + (1 : Int) ≤
        MAX_CACHE_SIZE_BYTES ∨
      (cacheMissFlow 1 (fun _ => false) false ⟨[], 0⟩).1.entries = [] ∨
      (∃ v, victim (cacheMissFlow 1 (fun _ => false) false ⟨[], 0⟩).1 = some v ∧
        (fun _ => false) v.file_path = true)) ∧
    (cacheMissFlow 1 (fun _ => false) false ⟨[], 0⟩).2 ≠
      NextStep.reportFailure :=
  reserve_outcome 1 (fun _ => false) false ⟨[], 0⟩ (by decide)

/-- Counterexample for C2 as stated: on an empty cache with a request one
byte over the whole capacity, the code proceeds to a full download (it
does not report any failure) while `total + requested > capacity`. -/
theorem reserve_no_fail_counterexample :
    (cacheMissFlow 524288001 (fun _ => false) false ⟨[], 0⟩).1.total +
        (524288001 : Int) > MAX_CACHE_SIZE_BYTES ∧
    (cacheMissFlow 524288001 (fun _ => false) false ⟨[], 0⟩).2 =
      NextStep.fullDownload := by
  decide

/-- Claim C3 (amended).  If deleting the backing file of the chosen
eviction victim fails, the eviction loop aborts entirely — the victim and
all remaining entries stay, the total is untouched — but the reservation
is NOT reported as a failure to the caller: the `play` command silently
proceeds with the streaming/download step (only a log line is emitted,
bot.py lines 442-445).  The claim's second half — that the failure is
surfaced to the caller instead of silently continuing with the download —
is false on the code; see the counterexample. -/
theorem eviction_del_failure_aborts (need : Nat) (delF : String → Bool)
    (b : Bool) (tot : Int) (e : SongMetadata) (es : List SongMetadata)
    (hover : tot + (need : Int) > MAX_CACHE_SIZE_BYTES)
    (hneed : need ≠ 0)
    (hdel : delF (pyMin e es).file_path = true) :
    cacheMissFlow need delF b ⟨e :: es, tot⟩ =
      (⟨e :: es, tot⟩,
        if b then NextStep.streamAndBackground else NextStep.fullDownload) := by
  have h1 : evictLoop need delF ⟨e :: es, tot⟩ = ⟨e :: es, tot⟩ := by
    simp [evictLoop, evictLoopFuel, hover, hdel]
  simp [cacheMissFlow, hneed, h1]

/-- Witness for C3 at a concrete input: one cached entry, deletion always
failing, a request that overflows the budget. -/
theorem eviction_del_failure_aborts_witness :
    cacheMissFlow 524288000 (fun _ => true) false
        ⟨[⟨"a", "ta", "music/global_cache/a.mp3", 60, 1⟩], 60⟩ =
      (⟨[⟨"a", "ta", "music/global_cache/a.mp3", 60, 1⟩], 60⟩,
        if false then NextStep.streamAndBackground
        else NextStep.fullDownload) :=
  eviction_del_failure_aborts 524288000 (fun _ => true) false 60
    ⟨"a", "ta", "music/global_cache/a.mp3", 60, 1⟩ []
    (by decide) (by decide) (by decide)

/-- Counterexample for C3 as stated: with the victim's deletion failing
and space still insufficient, the flow proceeds to a full download — it is
not reported as a reservation failure — and the victim is still cached. -/
theorem eviction_del_failure_counterexample :
    (cacheMissFlow 524288000 (fun _ => true) false
        ⟨[⟨"a", "ta", "music/global_cache/a.mp3", 60, 1⟩], 60⟩).2 ≠
      NextStep.reportFailure ∧
    (cacheMissFlow 524288000 (fun _ => true) false
        ⟨[⟨"a", "ta", "music/global_cache/a.mp3", 60, 1⟩], 60⟩).1.entries ≠
      [] := by
  decide

/-- Claim C4 (confirmed).  On every non-empty cache with unique content
ids, the eviction step selects `pyMin`, which is an entry of minimal
weight such that every entry inserted before it has strictly greater
weight (so ties go to the oldest-inserted entry — Python's `min` over the
insertion-ordered dict keeps the first minimum), and removes exactly that
entry: the entries before and after it are untouched, and one iteration of
the eviction loop recurses on exactly that removal. -/
theorem eviction_removes_first_min (e : SongMetadata) (t : List SongMetadata)
    (hnd : ((e :: t).map SongMetadata.video_id).Nodup) :
    ∃ l₁ l₂, e :: t = l₁ ++ pyMin e t :: l₂ ∧
      (∀ x ∈ e :: t, (pyMin e t).weight ≤ x.weight) ∧
      (∀ x ∈ l₁, (pyMin e t).weight < x.weight) ∧
      removeById (pyMin e t).video_id (e :: t) = l₁ ++ l₂ ∧
      (∀ (need : Nat) (delF : String → Bool) (tot : Int) (fuel : Nat),
        tot + (need : Int) > MAX_CACHE_SIZE_BYTES →
        delF (pyMin e t).file_path = false →
        evictLoopFuel need delF (fuel + 1) ⟨e :: t, tot⟩ =
          evictLoopFuel need delF fuel
            ⟨l₁ ++ l₂, tot - ((pyMin e t).size_bytes : Int)⟩) := by
  rcases pyMin_decomp e t with ⟨l₁, l₂, hdec, hmin, hstrict⟩
  generalize hveq : pyMin e t = v at hdec hmin hstrict ⊢
  have hrem : removeById v.video_id (e :: t) = l₁ ++ l₂ := by
    rw [hdec] at hnd ⊢
    exact removeById_prefix_miss rfl (nodup_middle_ids hnd).1
  refine ⟨l₁, l₂, hdec, hmin, hstrict, hrem, ?_⟩
  intro need delF tot fuel hover hdel
  simp [evictLoopFuel, hover, hdel, hrem, hveq]

/-- Witness for C4 at a concrete cache with a weight tie: entries a
(weight 2), b (weight 1), c (weight 1) — the selected victim decomposes
the list and is the entry removed. -/
theorem eviction_removes_first_min_witness :
    ∃ l₁ l₂,
      ([⟨"a", "t", "pa", 1, 2⟩, ⟨"b", "t", "pb", 1, 1⟩,
        ⟨"c", "t", "pc", 1, 1⟩] : List SongMetadata) =
        l₁ ++ pyMin ⟨"a", "t", "pa", 1, 2⟩
          [⟨"b", "t", "pb", 1, 1⟩, ⟨"c", "t", "pc", 1, 1⟩] :: l₂ ∧
      removeById (pyMin ⟨"a", "t", "pa", 1, 2⟩
          [⟨"b", "t", "pb", 1, 1⟩, ⟨"c", "t", "pc", 1, 1⟩]).video_id
        [⟨"a", "t", "pa", 1, 2⟩, ⟨"b", "t", "pb", 1, 1⟩,
         ⟨"c", "t", "pc", 1, 1⟩] = l₁ ++ l₂ := by
  obtain ⟨l₁, l₂, h1, h2, h3, h4, h5⟩ :=
    eviction_removes_first_min ⟨"a", "t", "pa", 1, 2⟩
      [⟨"b", "t", "pb", 1, 1⟩, ⟨"c", "t", "pc", 1, 1⟩] (by decide)
  exact ⟨l₁, l₂, h1, h4⟩

/-- Claim C5 (confirmed).  Advancing the queue terminates on every queue,
including one whose every entry fails to resolve: the model of
`play_next_song` is a total structurally-recursive function; each
recursive call is made only after the head has been popped, so (first
conjunct) a failing head leads to the same result as advancing the
strictly shorter popped queue with the current fields cleared — one
attempt per entry — and (second conjunct) on a queue whose entries all
fail, the drain bottoms out in the idle state: empty queue, cleared
current fields, the existing timer untouched. -/
theorem advance_drains_and_terminates (fe pr : String → Bool)
    (g : GuildPlayerState)
    (hvc : vcConnected g = true) (hctx : g.last_ctx = true) :
    (∀ fp rest, g.queue = fp :: rest → entryFails fe pr fp = true →
      play_next_song fe pr g =
        play_next_song fe pr
          { g with queue := rest, song_titles := g.song_titles.tail,
                   current_song_path := none, current_song_title := none }) ∧
    ((∀ fp ∈ g.queue, entryFails fe pr fp = true) →
      play_next_song fe pr g =
        { g with queue := [],
                 song_titles := g.song_titles.drop g.queue.length,
                 current_song_path := none, current_song_title := none }) := by
  constructor
  · intro fp rest hq hfail
    have hvc' : vcConnected
        { g with queue := rest, song_titles := g.song_titles.tail,
                 current_song_path := none, current_song_title := none } =
        true := hvc
    have hctx' :
        ({ g with queue := rest, song_titles := g.song_titles.tail,
                  current_song_path := none,
                  current_song_title := none } : GuildPlayerState).last_ctx =
        true := hctx
    rw [play_next_song_run fe pr g hvc hctx,
        play_next_song_run fe pr _ hvc' hctx', hq,
        playLoop_cons_fails fe pr g fp rest g.song_titles hfail]
    exact @playLoop_congr fe pr g
      { g with queue := rest, song_titles := g.song_titles.tail,
               current_song_path := none, current_song_title := none }
      rfl rfl rfl rest g.song_titles.tail
  · intro hall
    rw [play_next_song_run fe pr g hvc hctx]
    exact playLoop_all_fail fe pr g g.queue g.song_titles hall

/-- Witness for C5: a two-entry queue in which every entry is a missing
local file drains to the idle state. -/
theorem advance_drains_and_terminates_witness :
    play_next_song (fun _ => false) (fun _ => false)
        ⟨["x", "y"], ["tx", "ty"], none, none, false,
         some ⟨true, false⟩, true⟩ =
      ⟨[], [], none, none, false, some ⟨true, false⟩, true⟩ :=
  (advance_drains_and_terminates (fun _ => false) (fun _ => false)
      ⟨["x", "y"], ["tx", "ty"], none, none, false, some ⟨true, false⟩, true⟩
      (by decide) (by decide)).2 (by decide)

/-- Claim C6 (amended).  The `leave` command disconnects the sink, clears
the queue and the current-track fields and cancels the timer only when a
connected voice client exists; when the voice client is absent or
disconnected, `leave` changes nothing at all (it only replies).  The claim
as stated — that this happens for EVERY session state, unconditionally —
is false on the code (bot.py lines 655-680, `else` branch); see the
counterexample. -/
theorem leave_effect (g : GuildPlayerState) :
    (vcConnected g = true →
      leave g = { g with voice_client := none, queue := [], song_titles := [],
                         current_song_path := none,
                         current_song_title := none,
                         inactive_timer := false }) ∧
    (vcConnected g = false → leave g = g) := by
  constructor
  · intro h
    simp [leave, h]
  · intro h
    simp [leave, h]

/-- Witness for C6: both branches at concrete states. -/
theorem leave_effect_witness :
    leave ⟨["p"], ["t"], some "c", some "tc", true, some ⟨true, false⟩, true⟩ =
      ⟨[], [], none, none, false, none, true⟩ ∧
    leave ⟨["q"], ["u"], none, none, true, none, true⟩ =
      ⟨["q"], ["u"], none, none, true, none, true⟩ :=
  ⟨(leave_effect ⟨["p"], ["t"], some "c", some "tc", true,
      some ⟨true, false⟩, true⟩).1 (by decide),
   (leave_effect ⟨["q"], ["u"], none, none, true, none, true⟩).2 (by decide)⟩

/-- Counterexample for C6 as stated: with no voice client, `leave` leaves
a non-empty queue and a live timer untouched. -/
theorem leave_counterexample :
    leave ⟨["p"], ["t"], none, none, true, none, true⟩ =
        ⟨["p"], ["t"], none, none, true, none, true⟩ ∧
    (⟨["p"], ["t"], none, none, true, none, true⟩ :
        GuildPlayerState).queue ≠ [] ∧
    (⟨["p"], ["t"], none, none, true, none, true⟩ :
        GuildPlayerState).inactive_timer = true := by
  decide

/-- Claim C7 (amended).  The timer callback is a strict no-op whenever the
current path is set (truthy) or the sink reports active playback.  When
the session is idle with a disconnected sink it does NOT disconnect and
leaves queue, titles, current fields and voice client unchanged, but it
does clear the `inactive_timer` handle field (bot.py lines 953-955), so it
is not a strict no-op in that case — see the counterexample.  Firing the
callback twice always has the same effect as firing it once (it is
idempotent on every state). -/
theorem check_inactive_effect (g : GuildPlayerState) :
    (truthyStr g.current_song_path = true ∨ vcPlaying g = true →
      check_inactive g = g) ∧
    (truthyStr g.current_song_path = false → vcPlaying g = false →
      vcConnected g = false →
      check_inactive g = { g with inactive_timer := false }) ∧
    check_inactive (check_inactive g) = check_inactive g := by
  refine ⟨?_, ?_, ?_⟩
  · intro h
    rcases h with h | h <;> simp [check_inactive, h]
  · intro h1 h2 h3
    simp [check_inactive, h1, h2, h3]
  · by_cases h1 : (truthyStr g.current_song_path || vcPlaying g) = true
    · simp [check_inactive, h1]
    · simp only [Bool.or_eq_true, not_or, Bool.not_eq_true] at h1
      obtain ⟨ht, hp⟩ := h1
      by_cases h2 : vcConnected g = true
      · have e1 : check_inactive g =
            { g with voice_client := none, queue := [], song_titles := [],
                     inactive_timer := false } := by
          simp [check_inactive, ht, hp, h2]
        rw [e1]
        simp [check_inactive, vcPlaying, vcConnected, ht]
      · have hc : vcConnected g = false := by simpa using h2
        have e1 : check_inactive g = { g with inactive_timer := false } := by
          simp [check_inactive, ht, hp, hc]
        rw [e1]
        simp only [vcPlaying] at hp
        simp only [vcConnected] at hc
        simp [check_inactive, vcPlaying, vcConnected, ht, hp, hc]

/-- Witness for C7: the no-op branch at a playing state, and the
idle-disconnected branch clearing only the timer handle. -/
theorem check_inactive_effect_witness :
    check_inactive ⟨[], [], some "p", none, true, none, true⟩ =
      ⟨[], [], some "p", none, true, none, true⟩ ∧
    check_inactive ⟨[], [], none, none, true, none, true⟩ =
      ⟨[], [], none, none, false, none, true⟩ :=
  ⟨(check_inactive_effect ⟨[], [], some "p", none, true, none, true⟩).1
      (Or.inl (by decide)),
   (check_inactive_effect ⟨[], [], none, none, true, none, true⟩).2.1
      (by decide) (by decide) (by decide)⟩

/-- Counterexample for C7 as stated: a session that is idle with a
disconnected sink and a stale timer handle is changed by the callback (the
handle field is cleared), so the callback is not a no-op there. -/
theorem check_inactive_counterexample :
    check_inactive ⟨[], [], none, none, true, none, true⟩ ≠
      ⟨[], [], none, none, true, none, true⟩ := by
  decide

/-- Claim C8 (confirmed).  On every cache state whose looked-up key has a
metadata entry, a cache-hit lookup (local path, so not a stream) leaves
the entries before and after that entry untouched — their weights, sizes,
paths and titles included — increments that entry's weight by exactly 1,
and leaves the total byte count unchanged. -/
theorem lookup_hit_increments_weight (s : CacheState)
    (vid title path : String) (fsSize : Nat) (e : SongMetadata)
    (hpath : strStartsWith path "http" = false)
    (hfind : findById vid s.entries = some e) :
    ∃ l₁ l₂ e', s.entries = l₁ ++ e :: l₂ ∧
      (playInsert vid title path fsSize s).entries = l₁ ++ e' :: l₂ ∧
      e'.weight = e.weight + 1 ∧
      (playInsert vid title path fsSize s).total = s.total := by
  rcases updById_decomp
      (fun x =>
        let x' := { x with weight := x.weight + 1 }
        if !strStartsWith path "http" && strStartsWith x'.file_path "http" then
          { x' with file_path := path,
                    size_bytes := if strStartsWith path "http" then 0
                                  else fsSize }
        else x') hfind with ⟨l₁, l₂, hdec, hupd, -⟩
  refine ⟨l₁, l₂,
    (let x' := { e with weight := e.weight + 1 }
     if !strStartsWith path "http" && strStartsWith x'.file_path "http" then
       { x' with file_path := path,
                 size_bytes := if strStartsWith path "http" then 0 else fsSize }
     else x'),
    hdec, ?_, ?_, by simp [playInsert, hfind]⟩
  · simp only [playInsert, hfind]
    exact hupd
  · by_cases hcond :
      (!strStartsWith path "http" &&
        strStartsWith ({ e with weight := e.weight + 1 }).file_path "http") =
        true <;> simp [hcond]

/-- Witness for C8: a concrete one-entry cache hit bumps the weight from 1
to 2 and keeps the total at 5. -/
theorem lookup_hit_increments_weight_witness :
    ∃ l₁ l₂ e',
      ([⟨"a", "t", "music/global_cache/a.mp3", 5, 1⟩] :
          List SongMetadata) =
        l₁ ++ (⟨"a", "t", "music/global_cache/a.mp3", 5, 1⟩ :
          SongMetadata) :: l₂ ∧
      (playInsert "a" "t" "music/global_cache/a.mp3" 5
          ⟨[⟨"a", "t", "music/global_cache/a.mp3", 5, 1⟩], 5⟩).entries =
        l₁ ++ e' :: l₂ ∧
      e'.weight = 2 ∧
      (playInsert "a" "t" "music/global_cache/a.mp3" 5
          ⟨[⟨"a", "t", "music/global_cache/a.mp3", 5, 1⟩], 5⟩).total = 5 := by
  obtain ⟨l₁, l₂, e', h1, h2, h3, h4⟩ :=
    lookup_hit_increments_weight
      ⟨[⟨"a", "t", "music/global_cache/a.mp3", 5, 1⟩], 5⟩
      "a" "t" "music/global_cache/a.mp3" 5
      ⟨"a", "t", "music/global_cache/a.mp3", 5, 1⟩
      (by decide) (by decide)
  exact ⟨l₁, l₂, e', h1, h2, h3, h4⟩

/-- Claim C9 (confirmed).  Starting from an idle connected session with an
empty queue, enqueueing A, B, C in that order and advancing three times
(the second and third advances via the sink-finished callback, as the
driver does) plays A, then B, then C: enqueue appends at the tail and
advance pops the head, so FIFO order is preserved. -/
theorem fifo_playback (fe pr : String → Bool) (g : GuildPlayerState)
    (A B C tA tB tC : String)
    (hvc : vcConnected g = true) (hctx : g.last_ctx = true)
    (hq : g.queue = []) (ht : g.song_titles = [])
    (hA : entryFails fe pr A = false) (hB : entryFails fe pr B = false)
    (hC : entryFails fe pr C = false) :
    ∃ g1 g2 g3 : GuildPlayerState,
      play_next_song fe pr (enqueue C tC (enqueue B tB (enqueue A tA g))) =
        g1 ∧
      song_finished fe pr g1 = g2 ∧
      song_finished fe pr g2 = g3 ∧
      g1.current_song_path = some A ∧ g1.queue = [B, C] ∧
      g2.current_song_path = some B ∧ g2.queue = [C] ∧
      g3.current_song_path = some C ∧ g3.queue = [] := by
  refine ⟨⟨[B, C], [tB, tC], some A, some tA, true,
            g.voice_client, g.last_ctx⟩,
          ⟨[C], [tC], some B, some tB, true,
            g.voice_client, g.last_ctx⟩,
          ⟨[], [], some C, some tC, true,
            g.voice_client, g.last_ctx⟩,
          ?_, ?_, ?_, rfl, rfl, rfl, rfl, rfl, rfl⟩
  · have hq0 : (enqueue C tC (enqueue B tB (enqueue A tA g))).queue =
        A :: [B, C] := by
      simp [enqueue, hq]
    have ht0 : (enqueue C tC (enqueue B tB (enqueue A tA g))).song_titles =
        [tA, tB, tC] := by
      simp [enqueue, ht]
    have e1 := advance_ok_step fe pr
      (enqueue C tC (enqueue B tB (enqueue A tA g))) A [B, C] [tA, tB, tC]
      hvc hctx hq0 ht0 hA
    rw [e1]
    rfl
  · have h1 : vcConnected (⟨[B, C], [tB, tC], some A, some tA, true,
        g.voice_client, g.last_ctx⟩ : GuildPlayerState) = true := hvc
    rw [song_finished_connected fe pr _ h1]
    show play_next_song fe pr
        (⟨[B, C], [tB, tC], none, none, true,
          g.voice_client, g.last_ctx⟩ : GuildPlayerState) = _
    have e2 := advance_ok_step fe pr
      (⟨[B, C], [tB, tC], none, none, true,
        g.voice_client, g.last_ctx⟩ : GuildPlayerState)
      B [C] [tB, tC] hvc hctx rfl rfl hB
    rw [e2]
    rfl
  · have h2 : vcConnected (⟨[C], [tC], some B, some tB, true,
        g.voice_client, g.last_ctx⟩ : GuildPlayerState) = true := hvc
    rw [song_finished_connected fe pr _ h2]
    show play_next_song fe pr
        (⟨[C], [tC], none, none, true,
          g.voice_client, g.last_ctx⟩ : GuildPlayerState) = _
    have e3 := advance_ok_step fe pr
      (⟨[C], [tC], none, none, true,
        g.voice_client, g.last_ctx⟩ : GuildPlayerState)
      C [] [tC] hvc hctx rfl rfl hC
    rw [e3]
    rfl

/-- Witness for C9 at a concrete connected idle session. -/
theorem fifo_playback_witness :
    ∃ g1 g2 g3 : GuildPlayerState,
      play_next_song (fun _ => true) (fun _ => false)
          (enqueue "c" "tc" (enqueue "b" "tb" (enqueue "a" "ta"
            ⟨[], [], none, none, false, some ⟨true, false⟩, true⟩))) = g1 ∧
      song_finished (fun _ => true) (fun _ => false) g1 = g2 ∧
      song_finished (fun _ => true) (fun _ => false) g2 = g3 ∧
      g1.current_song_path = some "a" ∧ g1.queue = ["b", "c"] ∧
      g2.current_song_path = some "b" ∧ g2.queue = ["c"] ∧
      g3.current_song_path = some "c" ∧ g3.queue = [] :=
  fifo_playback (fun _ => true) (fun _ => false)
    ⟨[], [], none, none, false, some ⟨true, false⟩, true⟩
    "a" "b" "c" "ta" "tb" "tc"
    (by decide) (by decide) (by decide) (by decide)
    (by decide) (by decide) (by decide)

/-- Claim C10 (confirmed).  When the in-memory metadata map is empty —
as it is at every process start, `global_song_metadata` being initialized
to an empty dict that is never persisted — startup reconciliation leaves
the metadata empty and the total at 0, for every set of files physically
present in the cache directory and every getsize outcome: files on disk
without metadata are only logged, never re-adopted. -/
theorem startup_reconcile_empty (dirOk : Bool)
    (diskFiles : List (String × String × Nat)) (gsf : String → Bool) :
    init_cache_state dirOk diskFiles gsf [] = ([], 0) := by
  cases dirOk <;> simp [init_cache_state, sumSizes]

end MusicBot
